import Mathlib

/-!
# Verification of the OWID (Open Web Id) TypeScript library core

A shallow embedding of the SWAN-community/owid-js typed core:

* `Io` / `Reader` — the byte codec (`src/io.ts`);
* `Key`, `Signer` — key material and signer descriptors;
* `Owid` — the OWID object with its sign/verify state machine
  (`src/owid.ts`).

Modelling conventions, mirroring the JavaScript semantics:

* A JS string is a list of UTF-16 code units (`List Nat`); `charCodeAt`
  returns the unit itself.
* A JS byte buffer (`number[]` / `Uint8Array`) is a `List Nat`; entries of a
  genuine `Uint8Array` lie in `[0, 255]`.
* Possibly-`undefined` values are `Option`; an out-of-bounds indexed read
  yields `none` as JS yields `undefined`.
* Functions that may `throw` return `Except JsErr`; an error value names the
  message of the thrown JS error.
* Asynchronous host collaborators (WebCrypto, `Date.parse`, the signer
  service) are supplied as explicit oracle functions, so that all theorems
  quantify over their behaviour.
-/

deriving instance DecidableEq for Except

/-- Errors thrown by the source. Each constructor names one `throw` site
(or a host `TypeError`). `truncated` is listed for completeness of the
design-level error taxonomy; the codec under verification never raises it. -/
inductive JsErr where
  /-- `'value must be a byte'` from `Io.writeByte`. -/
  | valueMustBeByte : JsErr
  /-- `'value must be a valid string'` from `Io.writeString`. -/
  | valueMustBeString : JsErr
  /-- `'signature incorrect length'` from `Io.writeSignature`. -/
  | signatureLength : JsErr
  /-- `` `version ${version} not supported` `` from `OWID.fromByteArray`. -/
  | versionNotSupported : JsErr
  /-- `'signer missing private keys'` from `OWID.signWithSigner`. -/
  | missingPrivateKeys : JsErr
  /-- `` `signer domain '…' can't be used with OWID '…'` `` from
  `OWID.verifyWithSigner`. -/
  | domainMismatch : JsErr
  /-- `'target must be set'` from `OWID.addTargetAndOwidData`. -/
  | targetMustBeSet : JsErr
  /-- `'domain must be present'` from `OWID.addTargetAndOwidData`. -/
  | domainMustBePresent : JsErr
  /-- Host `TypeError` from reading a property of `undefined`. -/
  | typeError : JsErr
  /-- `InvalidCharacterError` from `btoa` on a unit above 255. -/
  | invalidCharacter : JsErr
  /-- An error produced by a crypto / service oracle. -/
  | hostError : JsErr
  /-- Design-level reader-out-of-bounds error; never produced by the code. -/
  | truncated : JsErr
deriving Repr, DecidableEq

/-- The verified status enumeration (`src/verifiedStatus.ts`). -/
inductive VerifiedStatus where
  | NotStarted : VerifiedStatus
  | SignerNotFound : VerifiedStatus
  | KeyNotFound : VerifiedStatus
  | Valid : VerifiedStatus
  | NotValid : VerifiedStatus
  | Processing : VerifiedStatus
  | Exception : VerifiedStatus
deriving Repr, DecidableEq

/-- JS indexed read `arr[i]` on an array of bytes: `undefined` (here `none`)
when the index is out of bounds, including negative indices. -/
def jsGet (arr : List Nat) (i : Int) : Option Nat :=
  if i < 0 then none else arr.get? i.toNat

/-- JS `Array.prototype.slice(s, e)` relative-index conversion and clamping
(also the `TypedArray` variant used by the source). -/
def jsSlice (arr : List Nat) (s e : Int) : List Nat :=
  let len : Int := arr.length
  let s' := if s < 0 then max (len + s) 0 else min s len
  let e' := if e < 0 then max (len + e) 0 else min e len
  (arr.take e'.toNat).drop s'.toNat

/-- JS `ToInt32`: interpret a nonnegative integer modulo `2^32` as a signed
32-bit value, as the bitwise operators in `Io.readUint32` do. -/
def toInt32 (n : Nat) : Int :=
  let m : Nat := n % 2 ^ 32
  if m < 2 ^ 31 then (m : Int) else (m : Int) - 2 ^ 32

/-- Lexicographic `<` on JS strings (sequences of UTF-16 code units), the
semantics of the `<` / `>` operators applied to two strings. -/
def jsStrLt : List Nat → List Nat → Bool
  | [], [] => false
  | [], _ :: _ => true
  | _ :: _, [] => false
  | a :: as, b :: bs => if a < b then true else if b < a then false else jsStrLt as bs

/-- JS string `>`: `a > b` is `b < a`. -/
def jsStrGt (a b : List Nat) : Bool := jsStrLt b a

/-- Used to read from a byte array (`Reader` in `src/io.ts`). The `array`
models the wrapped `Uint8Array`; `index` is the cursor, kept as an integer
because `readByteArray` adds an arbitrary (possibly negative) count to it. -/
structure Reader where
  array : List Nat
  index : Int := 0
deriving Repr, DecidableEq

namespace Io

/-- `Io.writeByte`: guard the byte range then push. The source also rejects
negative values; the `Nat` domain makes that branch vacuous here. The byte
count returned by `push`, which no caller of the OWID paths consumes, is
omitted: the grown buffer is returned instead. -/
def writeByte (b : List Nat) (v : Nat) : Except JsErr (List Nat) :=
  if v > 255 then .error .valueMustBeByte else .ok (b ++ [v])

/-- The `for` loop of `Io.writeString`: write each UTF-16 code unit through
`writeByte` in order. -/
def writeUnits (b : List Nat) : List Nat → Except JsErr (List Nat)
  | [] => .ok b
  | u :: rest => do writeUnits (← writeByte b u) rest

/-- `Io.writeString`: a falsy value (`undefined` or the empty string) throws;
otherwise each `charCodeAt` unit is written through `writeByte` — which
throws on units above 255 — and a single `0x00` terminator is pushed. -/
def writeString (b : List Nat) (v : Option (List Nat)) : Except JsErr (List Nat) :=
  match v with
  | none => .error .valueMustBeString
  | some [] => .error .valueMustBeString
  | some units => do .ok ((← writeUnits b units) ++ [0])

/-- `Io.writeUint32`: `DataView.setUint32(0, v, true)` stores `ToUint32 v`
little-endian; the four `getUint8` values are then pushed. Those values
always lie in `[0, 255]`, so the `writeByte` guard cannot fire and the
bytes are appended directly. `v` is an integer; `ToUint32` is `v mod 2^32`. -/
def writeUint32 (b : List Nat) (v : Int) : List Nat :=
  let m := (v % (2 ^ 32 : Int)).toNat
  b ++ [m % 256, m / 256 % 256, m / 2 ^ 16 % 256, m / 2 ^ 24 % 256]

/-- `Io.writeDate` is an alias for `writeUint32`. -/
def writeDate (b : List Nat) (v : Int) : List Nat := writeUint32 b v

/-- `Io.writeByteArrayNoLength`: write each entry through `writeByte`. -/
def writeByteArrayNoLength (b : List Nat) : List Nat → Except JsErr (List Nat)
  | [] => .ok b
  | v :: rest => do writeByteArrayNoLength (← writeByte b v) rest

/-- `Io.writeSignature`: reading `.length` of an `undefined` signature throws
a host `TypeError`; a length other than 64 throws; otherwise the raw bytes
are appended. -/
def writeSignature (b : List Nat) (signature : Option (List Nat)) :
    Except JsErr (List Nat) :=
  match signature with
  | none => .error .typeError
  | some s =>
      if s.length ≠ 64 then .error .signatureLength
      else writeByteArrayNoLength b s

/-- `Io.readByte`: `r.array[r.index++]` — the (possibly `undefined`) byte at
the cursor, with the cursor advanced unconditionally. Reader operations are
given in the ambient `Except JsErr` to state the design-level `Truncated`
contract about them; this one never throws. -/
def readByte (r : Reader) : Except JsErr (Option Nat × Reader) :=
  .ok (jsGet r.array r.index, { r with index := r.index + 1 })

/-- The `while` loop of `Io.readString`, made structural with fuel. The fuel
passed by `readString` bounds the number of iterations the JS loop can make
(the loop stops once `index` reaches `array.length`), so the two agree.
`String.fromCharCode(undefined)` is the NUL character, hence `getD 0`. -/
def readStringLoop (arr : List Nat) : Nat → Int → List Nat → List Nat × Int
  | 0, i, acc => (acc, i)
  | fuel + 1, i, acc =>
      if i < (arr.length : Int) ∧ jsGet arr i ≠ some 0 then
        readStringLoop arr fuel (i + 1) (acc ++ [(jsGet arr i).getD 0])
      else (acc, i)

/-- `Io.readString`: accumulate bytes until the end of the array or a `0x00`
byte, then step past the terminator. -/
def readString (r : Reader) : Except JsErr (List Nat × Reader) :=
  let fuel := ((r.array.length : Int) - r.index).toNat + 1
  let (s, i) := readStringLoop r.array fuel r.index []
  .ok (s, { r with index := i + 1 })

/-- `Io.readUint32`: four `readByte`s combined with `| << 8 | << 16 | << 24`.
The bitwise operators coerce an `undefined` byte to 0 and produce a signed
32-bit result; on bytes (values below 256) the disjoint ORs equal the sum. -/
def readUint32 (r : Reader) : Except JsErr (Int × Reader) := do
  let (b0, r1) ← readByte r
  let (b1, r2) ← readByte r1
  let (b2, r3) ← readByte r2
  let (b3, r4) ← readByte r3
  .ok (toInt32 (b0.getD 0 + b1.getD 0 * 2 ^ 8 + b2.getD 0 * 2 ^ 16 + b3.getD 0 * 2 ^ 24), r4)

/-- `Io.readDate` is an alias for `readUint32`. -/
def readDate (r : Reader) : Except JsErr (Int × Reader) := readUint32 r

/-- `Io.readByteArray`: a `uint32` count, then `slice(index, index + c)` with
the cursor moved by `c` (which, being a signed 32-bit value, may be
negative). -/
def readByteArray (r : Reader) : Except JsErr (List Nat × Reader) := do
  let (c, r1) ← readUint32 r
  .ok (jsSlice r1.array r1.index (r1.index + c), { r1 with index := r1.index + c })

/-- `Io.readSignature`: `slice(index, index + 64)` with the cursor moved by
64; a short remainder yields a short array, not an error. -/
def readSignature (r : Reader) : Except JsErr (List Nat × Reader) :=
  .ok (jsSlice r.array r.index (r.index + 64), { r with index := r.index + 64 })

/-- The base64 alphabet as UTF-16 code units (`'A'..'Z' 'a'..'z' '0'..'9' '+' '/'`). -/
def base64Chars : List Nat :=
  (List.range 26).map (· + 65) ++ (List.range 26).map (· + 97) ++
    (List.range 10).map (· + 48) ++ [43, 47]

/-- One base64 output character. -/
def b64Char (i : Nat) : Nat := base64Chars.getD i 0

/-- Base64-encode a byte list, three input bytes to four output characters,
padding with `'='` (61), as the host `btoa` does. -/
def b64Encode : List Nat → List Nat
  | [] => []
  | [a] => [b64Char (a / 4), b64Char (a % 4 * 16), 61, 61]
  | [a, b] => [b64Char (a / 4), b64Char (a % 4 * 16 + b / 16), b64Char (b % 16 * 4), 61]
  | a :: b :: c :: rest =>
      b64Char (a / 4) :: b64Char (a % 4 * 16 + b / 16) ::
        b64Char (b % 16 * 4 + c / 64) :: b64Char (c % 64) :: b64Encode rest

/-- The host `btoa`: rejects units above 255, else base64-encodes. -/
def btoa (s : List Nat) : Except JsErr (List Nat) :=
  if s.any (· > 255) then .error .invalidCharacter else .ok (b64Encode s)

/-- `Io.byteArrayToBase64`: the loop reads `array.byteLength`, so an
`undefined` array throws a host `TypeError`; otherwise the bytes become a
binary string passed to `btoa`. -/
def byteArrayToBase64 (array : Option (List Nat)) : Except JsErr (List Nat) :=
  match array with
  | none => .error .typeError
  | some a => btoa a

end Io

/-- Key (public or private) associated with the signer at a point in time
(`src/key.ts`): a PEM string and the creation date-time *as a string*. The
lazily cached `CryptoKey` is not modelled; key import is an oracle. -/
structure Key where
  pem : List Nat
  created : List Nat
deriving Repr, DecidableEq

/-- Signer of Open Web Ids (`src/signer.ts`). `privateKeys` is optional. -/
structure Signer where
  version : Nat
  domain : List Nat
  name : List Nat
  email : List Nat
  termsURL : List Nat
  publicKeys : List Key
  privateKeys : Option (List Key) := none
deriving Repr, DecidableEq

/-- The data fields of an `OWID` instance, plus ghost trace fields.

A freshly constructed OWID leaves `version`, `domain`, `timestamp` and
`signatureArray` undefined in JS; the undefined `domain` and
`signatureArray` — the two the claims depend on — are modelled by `none`,
while an unset `version` / `timestamp` is modelled by `0` (no claim
serializes a fresh instance's version or timestamp).

`statusTrace` / `signerTrace` are instrumentation only: every write to
`_status` / `_signer` in the source is routed through `setStatus` /
`setSigner` below, which append the written value. They let theorems speak
about *when* a field was written (e.g. "verification begins by setting
`Processing`"), and no operation ever reads them. -/
structure Owid where
  version : Nat := 0
  domain : Option (List Nat) := none
  timestamp : Int := 0
  signatureArray : Option (List Nat) := none
  status : VerifiedStatus := .NotStarted
  signer : Option Signer := none
  statusTrace : List VerifiedStatus := []
  signerTrace : List (Option Signer) := []
deriving Repr, DecidableEq

/-- The target contract (`src/target.ts` is absent from the sources; the
interface is visible at every use): a single capability appending the
target's canonical bytes to a buffer. -/
abbrev OwidTarget := List Nat → List Nat

/-- Oracle for the WebCrypto facade (`src/crypto.ts`). `CryptoKey` handles
are numbers. Theorems quantify over the oracle. -/
structure CryptoOracle where
  sign : Nat → List Nat → Except JsErr (List Nat)
  verify : Nat → Option (List Nat) → List Nat → Except JsErr Bool
  importKey : List Nat → Except JsErr Nat
  importPrivateKey : List Nat → Except JsErr Nat

/-- Oracle for `Date.parse`: the parsed instant of a date string in
milliseconds since the Unix epoch (used by `Key.createdDate`). -/
abbrev DateParse := List Nat → Int

namespace Owid

/-- An assignment `this._status = s`, recorded on the ghost trace. -/
def setStatus (o : Owid) (s : VerifiedStatus) : Owid :=
  { o with status := s, statusTrace := o.statusTrace ++ [s] }

/-- An assignment `this._signer = s`, recorded on the ghost trace. -/
def setSigner (o : Owid) (s : Option Signer) : Owid :=
  { o with signer := s, signerTrace := o.signerTrace ++ [s] }

/-- `OWID.startVerify`: clear the recorded signer, set `Processing`. -/
def startVerify (o : Owid) : Owid :=
  (o.setSigner none).setStatus .Processing

/-- The `isSigned` getter: `this.signatureArray && this.signatureArray.length > 0`.
With an undefined array JS returns the falsy `undefined` itself; as the
declared boolean that is `false`. -/
def isSigned (o : Owid) : Bool :=
  match o.signatureArray with
  | none => false
  | some a => decide (a.length > 0)

/-- The `signature` getter: base64 of `signatureArray`; throws a host
`TypeError` when the array is undefined. -/
def signature (o : Owid) : Except JsErr (List Nat) :=
  Io.byteArrayToBase64 o.signatureArray

/-- The value of `this.timeStampDate.getTime()`: the `Io.dateBase` epoch
instant (in ms — host-timezone dependent, hence the parameter `db`) plus
the stored timestamp in minutes times 60000. -/
def timeStampMs (db : Int) (o : Owid) : Int :=
  db + o.timestamp * 60000

end Owid

/-- The `IOWID` serialization interface. -/
structure IOwid where
  version : Nat
  domain : Option (List Nat)
  timestamp : Int
  signature : List Nat
deriving Repr, DecidableEq

namespace Owid

/-- `OWID.toJSON`: a fresh `IOWID` whose `signature` field invokes the
`signature` getter — and therefore throws when the array is undefined. -/
def toJSON (o : Owid) : Except JsErr IOwid := do
  let s ← Io.byteArrayToBase64 o.signatureArray
  .ok { version := o.version, domain := o.domain, timestamp := o.timestamp, signature := s }

/-- `OWID.addToByteArray`: version byte, null-terminated domain, date,
then the raw 64-byte signature. -/
def addToByteArray (o : Owid) (b : List Nat) : Except JsErr (List Nat) := do
  let b1 ← Io.writeByte b o.version
  let b2 ← Io.writeString b1 o.domain
  let b3 := Io.writeDate b2 o.timestamp
  Io.writeSignature b3 o.signatureArray

/-- `OWID.fromByteArrayV1`: domain, date, signature. -/
def fromByteArrayV1 (o : Owid) (r : Reader) : Except JsErr (Owid × Reader) := do
  let (d, r1) ← Io.readString r
  let (t, r2) ← Io.readDate r1
  let (sig, r3) ← Io.readSignature r2
  .ok ({ o with domain := some d, timestamp := t, signatureArray := some sig }, r3)

/-- `OWID.fromByteArray`: the first byte dispatches on the version; only `1`
is supported, anything else (including a byte missing past the end of the
input) throws. The source assigns the read version to `this` before
throwing; the error branch here carries no state, which no claim observes. -/
def fromByteArray (o : Owid) (r : Reader) : Except JsErr (Owid × Reader) := do
  let (vb, r1) ← Io.readByte r
  match vb with
  | some 1 => fromByteArrayV1 { o with version := 1 } r1
  | _ => .error .versionNotSupported

/-- `OWID.addTargetAndOwidData`: target bytes first, then — provided the
target exists and the domain is truthy — the version byte, the domain and
the `uint32` timestamp. This is the exact message signed and verified. -/
def addTargetAndOwidData (tgt : Option OwidTarget) (o : Owid) (b : List Nat) :
    Except JsErr (List Nat) :=
  match tgt with
  | none => .error .targetMustBeSet
  | some t =>
      let b1 := t b
      match o.domain with
      | none => .error .domainMustBePresent
      | some [] => .error .domainMustBePresent
      | some d => do
          let b2 ← Io.writeByte b1 o.version
          let b3 ← Io.writeString b2 (some d)
          .ok (Io.writeUint32 b3 o.timestamp)

/-- `OWID.signWithCryptoKey`: set `version ← 1`, set the timestamp to the
current time (supplied here as `nowMinutes`, the value
`DateHelper.getDateInMinutes(new Date())` the setter stores), assemble the
message, sign, store the signature. -/
def signWithCryptoKey (co : CryptoOracle) (tgt : Option OwidTarget)
    (nowMinutes : Int) (cryptoKey : Nat) (o : Owid) : Except JsErr Unit × Owid :=
  let o1 := { o with version := 1, timestamp := nowMinutes }
  match addTargetAndOwidData tgt o1 [] with
  | .error e => (.error e, o1)
  | .ok data =>
      match co.sign cryptoKey data with
      | .error e => (.error e, o1)
      | .ok sig => (.ok (), { o1 with signatureArray := some sig })

/-- `OWID.signWithPemKey`: import the PEM private key, then sign. -/
def signWithPemKey (co : CryptoOracle) (tgt : Option OwidTarget)
    (nowMinutes : Int) (pemKey : List Nat) (o : Owid) : Except JsErr Unit × Owid :=
  match co.importPrivateKey pemKey with
  | .error e => (.error e, o)
  | .ok ck => signWithCryptoKey co tgt nowMinutes ck o

/-- The selection loop of `OWID.signWithSigner`: starting from
`privateKeys[0]`, replace the candidate whenever `key.created >
newest.created` — a comparison of the two **strings** with the JS `>`
operator, i.e. lexicographic on code units. -/
def newestKey (k0 : Key) : List Key → Key
  | [] => k0
  | k :: rest => newestKey (if jsStrGt k.created k0.created then k else k0) rest

/-- `OWID.signWithSigner`: missing or empty `privateKeys` throws; otherwise
select a key with `newestKey`, set the domain from the signer, sign with
the selected key's PEM and finally record the signer. -/
def signWithSigner (co : CryptoOracle) (tgt : Option OwidTarget)
    (nowMinutes : Int) (signer : Signer) (o : Owid) : Except JsErr Unit × Owid :=
  match signer.privateKeys with
  | none => (.error .missingPrivateKeys, o)
  | some [] => (.error .missingPrivateKeys, o)
  | some (k0 :: rest) =>
      let newest := newestKey k0 rest
      let o1 := { o with domain := some signer.domain }
      match signWithPemKey co tgt nowMinutes newest.pem o1 with
      | (.error e, o2) => (.error e, o2)
      | (.ok _, o2) => (.ok (), o2.setSigner (some signer))

/-- `OWID.verifyWithCrypto`: `startVerify`, clear the signer again, assemble
the message and ask the crypto oracle; `true` is `Valid`, `false` is
`NotValid`; a throw from assembly or the oracle is caught, sets
`Exception` and propagates. -/
def verifyWithCrypto (co : CryptoOracle) (tgt : Option OwidTarget) (key : Nat)
    (o : Owid) : Except JsErr VerifiedStatus × Owid :=
  let o1 := o.startVerify
  let o2 := o1.setSigner none
  match addTargetAndOwidData tgt o2 [] with
  | .error e => (.error e, o2.setStatus .Exception)
  | .ok data =>
      match co.verify key o2.signatureArray data with
      | .error e => (.error e, o2.setStatus .Exception)
      | .ok bv =>
          let st := if bv then VerifiedStatus.Valid else VerifiedStatus.NotValid
          (.ok st, o2.setStatus st)

/-- `OWID.verifyWithPublicKey`: `startVerify`, materialize the PEM key
(a rejection here is awaited, so the catch sets `Exception` and
propagates), then delegate. The delegated call is returned without `await`,
so its rejection bypasses this function's catch — `verifyWithCrypto` has
already set `Exception` itself. -/
def verifyWithPublicKey (co : CryptoOracle) (tgt : Option OwidTarget) (key : Key)
    (o : Owid) : Except JsErr VerifiedStatus × Owid :=
  let o1 := o.startVerify
  match co.importKey key.pem with
  | .error e => (.error e, o1.setStatus .Exception)
  | .ok ck => verifyWithCrypto co tgt ck o1

/-- The key-selection loop of `OWID.verifyWithPublicKeys`: the first key in
list order whose created time, less the one-hour tolerance, is at or
before the OWID time is delegated to `verifyWithPublicKey`; if none
qualifies the status becomes `KeyNotFound`. -/
def verifyKeysLoop (co : CryptoOracle) (tgt : Option OwidTarget)
    (parse : DateParse) (time : Int) :
    List Key → Owid → Except JsErr VerifiedStatus × Owid
  | [], o => (.ok .KeyNotFound, o.setStatus .KeyNotFound)
  | key :: rest, o =>
      let created := parse key.created - 60 * 60 * 1000
      if time ≥ created then verifyWithPublicKey co tgt key o
      else verifyKeysLoop co tgt parse time rest o

/-- `OWID.verifyWithPublicKeys`: `startVerify`, take the OWID time in ms,
then run the selection loop. Nothing inside the `try` can throw except the
delegated `verifyWithPublicKey`, whose promise is returned without
`await` — so the catch of this function is unreachable and the delegate's
own `Exception` handling is what the caller observes. -/
def verifyWithPublicKeys (co : CryptoOracle) (tgt : Option OwidTarget)
    (parse : DateParse) (db : Int) (keys : List Key) (o : Owid) :
    Except JsErr VerifiedStatus × Owid :=
  let o1 := o.startVerify
  let time := timeStampMs db o1
  verifyKeysLoop co tgt parse time keys o1

/-- `OWID.verifyWithSigner`: `startVerify`; a domain mismatch throws (caught:
`Exception`); otherwise delegate to `verifyWithPublicKeys` (awaited, so a
rejection is caught, sets `Exception`, and propagates) and on a clean
return — `KeyNotFound` included — record the signer. -/
def verifyWithSigner (co : CryptoOracle) (tgt : Option OwidTarget)
    (parse : DateParse) (db : Int) (signer : Signer) (o : Owid) :
    Except JsErr VerifiedStatus × Owid :=
  let o1 := o.startVerify
  if some signer.domain ≠ o1.domain then
    (.error .domainMismatch, o1.setStatus .Exception)
  else
    match verifyWithPublicKeys co tgt parse db signer.publicKeys o1 with
    | (.error e, o2) => (.error e, o2.setStatus .Exception)
    | (.ok st, o2) => (.ok st, o2.setSigner (some signer))

/-- The signer service (`SignerService.get`): receives the OWID, returns a
signer, a null / undefined (`none`), or throws. -/
abbrev SignerService := Owid → Except JsErr (Option Signer)

/-- `OWID.verifyWithService`: `startVerify`; fetch the signer (awaited, so a
rejection is caught and sets `Exception`); a truthy signer delegates to
`verifyWithSigner` (returned without `await`: its rejection bypasses this
catch, the delegate having set `Exception` already); otherwise
`SignerNotFound`. -/
def verifyWithService (co : CryptoOracle) (tgt : Option OwidTarget)
    (parse : DateParse) (db : Int) (service : SignerService) (o : Owid) :
    Except JsErr VerifiedStatus × Owid :=
  let o1 := o.startVerify
  match service o1 with
  | .error e => (.error e, o1.setStatus .Exception)
  | .ok (some signer) => verifyWithSigner co tgt parse db signer o1
  | .ok none => (.ok .SignerNotFound, o1.setStatus .SignerNotFound)

end Owid

/-- The status a verification call leaves behind as a function of its
outcome: the returned value on a clean return, `Exception` on a throw. -/
def finalStatus : Except JsErr VerifiedStatus → VerifiedStatus
  | .ok v => v
  | .error _ => .Exception

/-- Postcondition of every `verifyWith*` entry point on a starting state
`o`: the final status matches the outcome, the very first status written is
`Processing`, and the very first signer written is `undefined`. -/
def VerifyPost (o : Owid) (p : Except JsErr VerifiedStatus × Owid) : Prop :=
  p.2.status = finalStatus p.1 ∧
  (∃ t, p.2.statusTrace = o.statusTrace ++ .Processing :: t) ∧
  (∃ t, p.2.signerTrace = o.signerTrace ++ none :: t)

/-- Postcondition of the key-selection loop relative to the state it starts
from: the final status matches the outcome and the traces only grow. -/
def LoopPost (o : Owid) (p : Except JsErr VerifiedStatus × Owid) : Prop :=
  p.2.status = finalStatus p.1 ∧
  (∃ t, p.2.statusTrace = o.statusTrace ++ t) ∧
  (∃ t, p.2.signerTrace = o.signerTrace ++ t)

/-- Modelled from the spec, for comparison in claim C4 only: the selection
the spec attributes to `signWithSigner` — the newest private key by
`createdDate` (the parsed `created` string), ties broken by list order
with the first winning. -/
def newestByCreatedDate (parse : DateParse) (k0 : Key) : List Key → Key
  | [] => k0
  | k :: rest =>
      newestByCreatedDate parse (if parse k.created > parse k0.created then k else k0) rest

namespace Owid

@[simp] theorem setStatus_status (o : Owid) (s : VerifiedStatus) : (o.setStatus s).status = s := rfl

@[simp] theorem setStatus_signer (o : Owid) (s : VerifiedStatus) : (o.setStatus s).signer = o.signer := rfl

@[simp] theorem setStatus_statusTrace (o : Owid) (s : VerifiedStatus) :
    (o.setStatus s).statusTrace = o.statusTrace ++ [s] := rfl

@[simp] theorem setStatus_signerTrace (o : Owid) (s : VerifiedStatus) :
    (o.setStatus s).signerTrace = o.signerTrace := rfl

@[simp] theorem setStatus_timestamp (o : Owid) (s : VerifiedStatus) : (o.setStatus s).timestamp = o.timestamp := rfl

@[simp] theorem setStatus_domain (o : Owid) (s : VerifiedStatus) : (o.setStatus s).domain = o.domain := rfl

@[simp] theorem setStatus_signatureArray (o : Owid) (s : VerifiedStatus) :
    (o.setStatus s).signatureArray = o.signatureArray := rfl

@[simp] theorem setStatus_version (o : Owid) (s : VerifiedStatus) : (o.setStatus s).version = o.version := rfl

@[simp] theorem setSigner_status (o : Owid) (s : Option Signer) : (o.setSigner s).status = o.status := rfl

@[simp] theorem setSigner_signer (o : Owid) (s : Option Signer) : (o.setSigner s).signer = s := rfl

@[simp] theorem setSigner_statusTrace (o : Owid) (s : Option Signer) :
    (o.setSigner s).statusTrace = o.statusTrace := rfl

@[simp] theorem setSigner_signerTrace (o : Owid) (s : Option Signer) :
    (o.setSigner s).signerTrace = o.signerTrace ++ [s] := rfl

@[simp] theorem setSigner_timestamp (o : Owid) (s : Option Signer) : (o.setSigner s).timestamp = o.timestamp := rfl

@[simp] theorem setSigner_domain (o : Owid) (s : Option Signer) : (o.setSigner s).domain = o.domain := rfl

@[simp] theorem setSigner_signatureArray (o : Owid) (s : Option Signer) :
    (o.setSigner s).signatureArray = o.signatureArray := rfl

@[simp] theorem setSigner_version (o : Owid) (s : Option Signer) : (o.setSigner s).version = o.version := rfl

@[simp] theorem startVerify_status (o : Owid) : o.startVerify.status = .Processing := rfl

@[simp] theorem startVerify_signer (o : Owid) : o.startVerify.signer = none := rfl

@[simp] theorem startVerify_statusTrace (o : Owid) :
    o.startVerify.statusTrace = o.statusTrace ++ [.Processing] := rfl

@[simp] theorem startVerify_signerTrace (o : Owid) :
    o.startVerify.signerTrace = o.signerTrace ++ [none] := rfl

@[simp] theorem startVerify_timestamp (o : Owid) : o.startVerify.timestamp = o.timestamp := rfl

@[simp] theorem startVerify_domain (o : Owid) : o.startVerify.domain = o.domain := rfl

@[simp] theorem startVerify_signatureArray (o : Owid) :
    o.startVerify.signatureArray = o.signatureArray := rfl

@[simp] theorem startVerify_version (o : Owid) : o.startVerify.version = o.version := rfl

@[simp] theorem timeStampMs_startVerify (db : Int) (o : Owid) :
    timeStampMs db o.startVerify = timeStampMs db o := rfl

end Owid

/-- C8 — the claim as stated is false: an OWID whose signature array has
length 1 (not 64) still reports `isSigned = true`, because the getter only
tests `length > 0`. -/
theorem isSigned_counterexample :
    ({ signatureArray := some [7] } : Owid).isSigned = true ∧
    (({ signatureArray := some [7] } : Owid).signatureArray.getD []).length ≠ 64 := by
  decide

/-- C8 (amended) — `isSigned` is true iff the signature array is present and
its length is positive; the source never compares the length with 64 here. -/
theorem isSigned_iff_nonempty (o : Owid) :
    o.isSigned = true ↔ ∃ a, o.signatureArray = some a ∧ 0 < a.length := by
  cases h : o.signatureArray with
  | none => simp [Owid.isSigned, h]
  | some a => simp [Owid.isSigned, h]

/-- C8 witness — a 64-byte signature is reported signed. -/
theorem isSigned_iff_nonempty_witness :
    ({ signatureArray := some (List.replicate 64 0) } : Owid).isSigned = true :=
  (isSigned_iff_nonempty _).mpr ⟨List.replicate 64 0, rfl, by decide⟩

/-- C10 — on an OWID whose signature array is undefined (never signed, not
built from a serialized source), both the `signature` getter and `toJSON`
throw a host `TypeError` (the base64 conversion reads `byteLength` of
`undefined`) instead of returning a neutral value. -/
theorem unsigned_signature_access_throws (o : Owid) (h : o.signatureArray = none) :
    o.signature = .error .typeError ∧ o.toJSON = .error .typeError := by
  refine ⟨?_, ?_⟩ <;>
    simp [Owid.signature, Owid.toJSON, Io.byteArrayToBase64, h, Bind.bind, Except.bind]

/-- C10 witness — the freshly constructed OWID (all fields at their unset
defaults) throws from both accessors. -/
theorem unsigned_signature_access_throws_witness :
    ({} : Owid).signature = .error .typeError ∧ ({} : Owid).toJSON = .error .typeError :=
  unsigned_signature_access_throws {} rfl

namespace Io

/-- `writeUnits` succeeds on in-range units and appends them in order. -/
theorem writeUnits_ok (units : List Nat) : ∀ b, (∀ u ∈ units, u ≤ 255) →
    writeUnits b units = .ok (b ++ units) := by
  induction units with
  | nil => intro b _; simp [writeUnits]
  | cons u rest ih =>
      intro b h
      have hu : ¬ u > 255 := by have := h u (by simp); omega
      simp only [writeUnits, writeByte, if_neg hu, Bind.bind, Except.bind]
      rw [ih (b ++ [u]) (fun x hx => h x (by simp [hx]))]
      simp

/-- `writeUnits` throws `'value must be a byte'` at the first out-of-range
unit. -/
theorem writeUnits_err (pre : List Nat) : ∀ b u post, (∀ x ∈ pre, x ≤ 255) → 255 < u →
    writeUnits b (pre ++ u :: post) = .error .valueMustBeByte := by
  induction pre with
  | nil =>
      intro b u post _ hu
      simp only [List.nil_append, writeUnits, writeByte, if_pos (by omega : u > 255),
        Bind.bind, Except.bind]
  | cons x rest ih =>
      intro b u post h hu
      have hx : ¬ x > 255 := by have := h x (by simp); omega
      simp only [List.cons_append, writeUnits, writeByte, if_neg hx, Bind.bind, Except.bind]
      exact ih (b ++ [x]) u post (fun y hy => h y (by simp [hy])) hu

/-- `writeByteArrayNoLength` succeeds on in-range bytes and appends them. -/
theorem writeByteArrayNoLength_ok (v : List Nat) : ∀ b, (∀ x ∈ v, x ≤ 255) →
    writeByteArrayNoLength b v = .ok (b ++ v) := by
  induction v with
  | nil => intro b _; simp [writeByteArrayNoLength]
  | cons x rest ih =>
      intro b h
      have hx : ¬ x > 255 := by have := h x (by simp); omega
      simp only [writeByteArrayNoLength, writeByte, if_neg hx, Bind.bind, Except.bind]
      rw [ih (b ++ [x]) (fun y hy => h y (by simp [hy]))]
      simp

end Io

/-- C7 — the claim as stated is false on strings with a code unit above 255:
`writeString` feeds `charCodeAt` straight into `writeByte`, whose range
guard throws; it does not truncate to the low 8 bits. For the one-character
string with unit 256 the claimed truncating output would be `[0, 0]`. -/
theorem writeString_high_unit_counterexample :
    Io.writeString [] (some [256]) = .error .valueMustBeByte ∧
    Io.writeString [] (some [256]) ≠ .ok [0, 0] := by
  decide

/-- C7 (amended) — `writeString` appends one byte per UTF-16 code unit
followed by a single `0x00` terminator for non-empty strings whose units
all fit in a byte; an empty or absent string throws `'value must be a
valid string'`; a unit above 255 throws `'value must be a byte'` instead
of being truncated. -/
theorem writeString_spec (b : List Nat) :
    (Io.writeString b none = .error .valueMustBeString) ∧
    (Io.writeString b (some []) = .error .valueMustBeString) ∧
    (∀ units, units ≠ [] → (∀ u ∈ units, u ≤ 255) →
      Io.writeString b (some units) = .ok (b ++ units ++ [0])) ∧
    (∀ pre u post, pre ++ u :: post ≠ [] → (∀ x ∈ pre, x ≤ 255) → 255 < u →
      Io.writeString b (some (pre ++ u :: post)) = .error .valueMustBeByte) := by
  refine ⟨rfl, rfl, ?_, ?_⟩
  · intro units hne hle
    cases units with
    | nil => exact absurd rfl hne
    | cons x rest =>
        simp only [Io.writeString, Bind.bind, Except.bind]
        rw [Io.writeUnits_ok (x :: rest) b hle]
  · intro pre u post _ hpre hu
    have h := Io.writeUnits_err pre b u post hpre hu
    cases hc : pre ++ u :: post with
    | nil => exact absurd hc (by simp)
    | cons y ys =>
        simp only [Io.writeString, Bind.bind, Except.bind]
        rw [← hc, h]

/-- C7 witness — the two-unit string `[104, 105]` (`"hi"`) is written as its
bytes plus the terminator. -/
theorem writeString_spec_witness :
    Io.writeString [9] (some [104, 105]) = .ok ([9] ++ [104, 105] ++ [0]) :=
  (writeString_spec [9]).2.2.1 [104, 105] (by decide) (by decide)

/-- One step of `readStringLoop` under a nonnegative in-range cursor with no
`0x00` before the end of the array: the whole remaining suffix is
accumulated and the cursor stops at the array length. -/
theorem readStringLoop_no_zero (arr : List Nat) :
    ∀ (fuel : Nat) (i : Int) (acc : List Nat), 0 ≤ i → i.toNat ≤ arr.length →
    (∀ b ∈ arr.drop i.toNat, b ≠ 0) →
    (arr.length : Int) - i < fuel →
    Io.readStringLoop arr fuel i acc = (acc ++ arr.drop i.toNat, (arr.length : Int)) := by
  intro fuel
  induction fuel with
  | zero => intro i acc h0 hle _ hf; exact absurd hf (by omega)
  | succ fuel ih =>
      intro i acc h0 hle hall hf
      by_cases hlt : i < (arr.length : Int)
      · have hnat : i.toNat < arr.length := by omega
        have hdrop := List.drop_eq_getElem_cons hnat
        have hget : jsGet arr i = some (arr.get ⟨i.toNat, hnat⟩) := by
          simp [jsGet, if_neg (by omega : ¬ i < 0), List.get?_eq_get hnat]
        have hne : arr.get ⟨i.toNat, hnat⟩ ≠ 0 := by
          apply hall
          rw [hdrop]; exact List.mem_cons_self _ _
        simp only [Io.readStringLoop]
        rw [if_pos ⟨hlt, by rw [hget]; simpa [List.get_eq_getElem] using hne⟩]
        rw [hget]
        have h1 : (i + 1).toNat = i.toNat + 1 := by omega
        have := ih (i + 1) (acc ++ [arr.get ⟨i.toNat, hnat⟩]) (by omega) (by omega)
          (by rw [h1]; intro b hb; exact hall b (by rw [hdrop]; exact List.mem_cons_of_mem _ hb))
          (by omega)
        rw [h1] at this
        simp only [Option.getD_some]
        rw [this, hdrop]
        simp [List.get_eq_getElem]
      · have hi : i = (arr.length : Int) := by omega
        have : arr.drop i.toNat = [] := List.drop_eq_nil_of_le (by omega)
        simp [Io.readStringLoop, hlt, hi, this]

/-- `jsSlice` starting at a nonnegative cursor with a length offset is
take-after-drop. -/
theorem jsSlice_add (arr : List Nat) (i : Int) (h : 0 ≤ i) (n : Nat) :
    jsSlice arr i (i + n) = (arr.drop i.toNat).take n := by
  unfold jsSlice
  simp only [if_neg (by omega : ¬ i < 0), if_neg (by omega : ¬ i + (n : Int) < 0)]
  rcases le_or_lt i.toNat arr.length with hle | hgt
  · have hmin1 : (min i (arr.length : Int)).toNat = i.toNat := by omega
    have hmin2 : (min (i + (n : Int)) (arr.length : Int)).toNat = min (i.toNat + n) arr.length := by
      omega
    rw [hmin1, hmin2, List.drop_take]
    rw [List.take_eq_take]
    simp [List.length_drop]
    omega
  · have hmin1 : (min i (arr.length : Int)).toNat = arr.length := by omega
    have hmin2 : (min (i + (n : Int)) (arr.length : Int)).toNat = arr.length := by omega
    rw [hmin1, hmin2, List.take_length, List.drop_length,
      List.drop_eq_nil_of_le (le_of_lt hgt), List.take_nil]

/-- C6 — the claim as stated is false: a read past the end of the input does
not fail with a `Truncated` error. `readByte` on an empty reader returns
normally with JS `undefined` (here `none`), and `readSignature` with a
single remaining byte returns normally with a 1-byte array. -/
theorem reader_truncation_counterexample :
    Io.readByte { array := [], index := 0 } = .ok (none, { array := [], index := 1 }) ∧
    Io.readByte { array := [], index := 0 } ≠ .error .truncated ∧
    Io.readSignature { array := [1], index := 0 } = .ok ([1], { array := [1], index := 64 }) ∧
    Io.readSignature { array := [1], index := 0 } ≠ .error .truncated := by
  decide

/-- `readByte` past the end returns JS `undefined` and advances. -/
theorem readByte_past_end (r : Reader) (hr : (r.array.length : Int) ≤ r.index) :
    Io.readByte r = .ok (none, { r with index := r.index + 1 }) := by
  have hg : jsGet r.array r.index = none := by
    simp only [jsGet]
    rw [if_neg (by omega : ¬ r.index < 0)]
    exact List.get?_eq_none.mpr (by omega)
  simp [Io.readByte, hg]

/-- `readUint32` entirely past the end coerces the four `undefined` bytes to
zero. -/
theorem readUint32_past_end (r : Reader) (hr : (r.array.length : Int) ≤ r.index) :
    Io.readUint32 r = .ok (0, { r with index := r.index + 4 }) := by
  have hg : ∀ j : Int, r.index ≤ j → jsGet r.array j = none := by
    intro j hj
    simp only [jsGet]
    rw [if_neg (by omega : ¬ j < 0)]
    exact List.get?_eq_none.mpr (by omega)
  have h4 : Io.readUint32 r = .ok (toInt32 ((jsGet r.array r.index).getD 0 +
      (jsGet r.array (r.index + 1)).getD 0 * 2 ^ 8 +
      (jsGet r.array (r.index + 1 + 1)).getD 0 * 2 ^ 16 +
      (jsGet r.array (r.index + 1 + 1 + 1)).getD 0 * 2 ^ 24),
      { r with index := r.index + 1 + 1 + 1 + 1 }) := rfl
  rw [h4, hg r.index le_rfl, hg (r.index + 1) (by omega), hg (r.index + 1 + 1) (by omega),
    hg (r.index + 1 + 1 + 1) (by omega)]
  norm_num
  constructor
  · decide
  · omega

/-- `readString` on a remainder with no terminator returns the whole
remainder. -/
theorem readString_no_terminator (arr : List Nat) (i : Int) (h0 : 0 ≤ i)
    (hle : i.toNat ≤ arr.length) (hall : ∀ b ∈ arr.drop i.toNat, b ≠ 0) :
    Io.readString { array := arr, index := i } =
      .ok (arr.drop i.toNat, { array := arr, index := (arr.length : Int) + 1 }) := by
  simp only [Io.readString]
  rw [readStringLoop_no_zero arr _ i [] h0 hle hall (by omega)]
  simp

/-- `readSignature` with fewer than 64 remaining bytes returns the short
remainder. -/
theorem readSignature_short (r : Reader) (h0 : 0 ≤ r.index)
    (hf : (r.array.length : Int) - r.index < 64) :
    Io.readSignature r = .ok (r.array.drop r.index.toNat, { r with index := r.index + 64 }) ∧
    (r.array.drop r.index.toNat).length < 64 := by
  have hlen : (r.array.drop r.index.toNat).length < 64 := by
    rw [List.length_drop]; omega
  refine ⟨?_, hlen⟩
  have hs := jsSlice_add r.array r.index h0 64
  simp only [Io.readSignature]
  rw [show r.index + (64 : Int) = r.index + ((64 : Nat) : Int) by norm_num]
  rw [hs, List.take_of_length_le (le_of_lt hlen)]

/-- C6 (amended) — no read operation ever fails: on insufficient input
`readByte` returns `undefined`, `readUint32` treats the missing bytes as
zero, `readString` returns the bytes remaining before the (absent)
terminator, and `readSignature` returns the fewer-than-64 remaining bytes. -/
theorem reader_out_of_bounds_behavior :
    (∀ r : Reader, (Io.readByte r).isOk ∧ (Io.readString r).isOk ∧ (Io.readUint32 r).isOk ∧
      (Io.readByteArray r).isOk ∧ (Io.readSignature r).isOk) ∧
    (∀ r : Reader, (r.array.length : Int) ≤ r.index →
      Io.readByte r = .ok (none, { r with index := r.index + 1 }) ∧
      Io.readUint32 r = .ok (0, { r with index := r.index + 4 })) ∧
    (∀ (arr : List Nat) (i : Int), 0 ≤ i → i.toNat ≤ arr.length →
      (∀ b ∈ arr.drop i.toNat, b ≠ 0) →
      Io.readString { array := arr, index := i } =
        .ok (arr.drop i.toNat, { array := arr, index := (arr.length : Int) + 1 })) ∧
    (∀ r : Reader, 0 ≤ r.index → (r.array.length : Int) - r.index < 64 →
      Io.readSignature r = .ok (r.array.drop r.index.toNat, { r with index := r.index + 64 }) ∧
      (r.array.drop r.index.toNat).length < 64) :=
  ⟨fun _ => ⟨rfl, rfl, rfl, rfl, rfl⟩,
   fun r hr => ⟨readByte_past_end r hr, readUint32_past_end r hr⟩,
   readString_no_terminator,
   readSignature_short⟩

/-- C6 witness — concrete instances: a byte read at the end of a 1-byte
array yields `undefined`, and a signature read with one remaining byte
yields that single byte. -/
theorem reader_out_of_bounds_behavior_witness :
    Io.readByte { array := [5], index := 1 } = .ok (none, { array := [5], index := 2 }) ∧
    Io.readSignature { array := [9], index := 0 } = .ok ([9], { array := [9], index := 64 }) :=
  ⟨(reader_out_of_bounds_behavior.2.1 { array := [5], index := 1 } (by norm_num)).1,
   (reader_out_of_bounds_behavior.2.2.2 { array := [9], index := 0 } (by norm_num)
     (by norm_num)).1⟩

/-- `readUint32` on exactly four bytes at cursor 0, as the signed 32-bit
interpretation of the little-endian sum. -/
theorem readUint32_four (b0 b1 b2 b3 : Nat) :
    Io.readUint32 { array := [b0, b1, b2, b3], index := 0 } =
      .ok (toInt32 (b0 + b1 * 2 ^ 8 + b2 * 2 ^ 16 + b3 * 2 ^ 24),
        { array := [b0, b1, b2, b3], index := 4 }) := rfl

/-- C9 — `readUint32` combines the four little-endian bytes with 32-bit
signed bitwise arithmetic: a high byte of `0x80` or more yields the
negative value `u − 2^32`; consequently `readUint32 ∘ writeUint32` is the
identity exactly below `2^31`, and a serialized value of `2^31` or more
decodes negative. -/
theorem readUint32_signed_roundtrip :
    (∀ b0 b1 b2 b3 : Nat, b0 ≤ 255 → b1 ≤ 255 → b2 ≤ 255 → 128 ≤ b3 → b3 ≤ 255 →
      Io.readUint32 { array := [b0, b1, b2, b3], index := 0 } =
        .ok (((b0 + b1 * 2 ^ 8 + b2 * 2 ^ 16 + b3 * 2 ^ 24 : Nat) : Int) - 2 ^ 32,
          { array := [b0, b1, b2, b3], index := 4 })) ∧
    (∀ v : Nat, v < 2 ^ 31 →
      Io.readUint32 { array := Io.writeUint32 [] (v : Int), index := 0 } =
        .ok ((v : Int), { array := Io.writeUint32 [] (v : Int), index := 4 })) ∧
    (∀ v : Nat, 2 ^ 31 ≤ v → v < 2 ^ 32 →
      Io.readUint32 { array := Io.writeUint32 [] (v : Int), index := 0 } =
        .ok ((v : Int) - 2 ^ 32, { array := Io.writeUint32 [] (v : Int), index := 4 }) ∧
      (v : Int) - 2 ^ 32 < 0) := by
  have harr : ∀ v : Nat, v < 2 ^ 32 →
      Io.writeUint32 [] (v : Int) = [v % 256, v / 256 % 256, v / 2 ^ 16 % 256, v / 2 ^ 24 % 256] := by
    intro v hv
    have hm : ((v : Int) % ((2 : Int) ^ 32)).toNat = v := by omega
    simp only [Io.writeUint32, List.nil_append]
    rw [hm]
  refine ⟨?_, ?_, ?_⟩
  · intro b0 b1 b2 b3 h0 h1 h2 h3lo h3hi
    rw [readUint32_four]
    have hmod : (b0 + b1 * 2 ^ 8 + b2 * 2 ^ 16 + b3 * 2 ^ 24) % 2 ^ 32 =
        b0 + b1 * 2 ^ 8 + b2 * 2 ^ 16 + b3 * 2 ^ 24 := by omega
    simp only [toInt32, hmod]
    rw [if_neg (by omega)]
  · intro v hv
    rw [harr v (by omega), readUint32_four]
    have hsum : v % 256 + v / 256 % 256 * 2 ^ 8 + v / 2 ^ 16 % 256 * 2 ^ 16 +
        v / 2 ^ 24 % 256 * 2 ^ 24 = v := by omega
    rw [hsum]
    simp only [toInt32]
    rw [Nat.mod_eq_of_lt (by omega), if_pos (by omega)]
  · intro v hlo hhi
    refine ⟨?_, by omega⟩
    rw [harr v hhi, readUint32_four]
    have hsum : v % 256 + v / 256 % 256 * 2 ^ 8 + v / 2 ^ 16 % 256 * 2 ^ 16 +
        v / 2 ^ 24 % 256 * 2 ^ 24 = v := by omega
    rw [hsum]
    simp only [toInt32]
    rw [Nat.mod_eq_of_lt (by omega), if_neg (by omega)]

/-- C9 witness — the timestamp `2^31` serializes to `[0, 0, 0, 128]` and
decodes to `−2^31`, a negative number. -/
theorem readUint32_signed_roundtrip_witness :
    Io.readUint32 { array := Io.writeUint32 [] ((2 ^ 31 : Nat) : Int), index := 0 } =
      .ok (((2 ^ 31 : Nat) : Int) - 2 ^ 32,
        { array := Io.writeUint32 [] ((2 ^ 31 : Nat) : Int), index := 4 }) ∧
    ((2 ^ 31 : Nat) : Int) - 2 ^ 32 < 0 :=
  readUint32_signed_roundtrip.2.2 (2 ^ 31) (by norm_num) (by norm_num)

namespace Io

/-- `writeString` on a non-empty all-byte string appends the units and the
terminator. -/
theorem writeString_ok (b d : List Nat) (hne : d ≠ []) (h255 : ∀ c ∈ d, c ≤ 255) :
    writeString b (some d) = .ok (b ++ d ++ [0]) := by
  cases d with
  | nil => exact absurd rfl hne
  | cons x rest =>
      simp only [writeString, Bind.bind, Except.bind]
      rw [writeUnits_ok (x :: rest) b h255]

/-- `writeUint32` only appends to the buffer it is given. -/
theorem writeUint32_append (b : List Nat) (v : Int) :
    writeUint32 b v = b ++ writeUint32 [] v := by
  simp [writeUint32]

/-- The four bytes produced by `writeUint32` for an in-range natural. -/
theorem writeUint32_toNat (v : Nat) (hv : v < 2 ^ 32) :
    writeUint32 [] (v : Int) =
      [v % 256, v / 256 % 256, v / 2 ^ 16 % 256, v / 2 ^ 24 % 256] := by
  have hm : ((v : Int) % ((2 : Int) ^ 32)).toNat = v := by omega
  simp only [writeUint32, List.nil_append]
  rw [hm]

end Io

/-- Little-endian recombination of the four bytes of an in-range natural. -/
theorem u32_recombine (v : Nat) (hv : v < 2 ^ 32) :
    v % 256 + v / 256 % 256 * 2 ^ 8 + v / 2 ^ 16 % 256 * 2 ^ 16 +
      v / 2 ^ 24 % 256 * 2 ^ 24 = v := by
  omega

/-- `toInt32` is the identity below `2^31`. -/
theorem toInt32_small (v : Nat) (hv : v < 2 ^ 31) : toInt32 v = (v : Int) := by
  simp only [toInt32]
  rw [Nat.mod_eq_of_lt (by omega), if_pos (by omega)]

/-- A cons-shaped remainder determines the indexed read and the next
remainder. -/
theorem drop_cons_shape (arr : List Nat) (i : Int) (c : Nat) (rest : List Nat)
    (h0 : 0 ≤ i) (h : arr.drop i.toNat = c :: rest) :
    jsGet arr i = some c ∧ arr.drop (i + 1).toNat = rest := by
  have hn : i.toNat < arr.length := by
    by_contra hh
    rw [List.drop_eq_nil_of_le (by omega)] at h
    exact absurd h (by simp)
  have hdrop := List.drop_eq_getElem_cons hn
  rw [h] at hdrop
  obtain ⟨hc, hrest⟩ := List.cons.inj hdrop
  constructor
  · simp only [jsGet, if_neg (by omega : ¬ i < 0)]
    rw [List.get?_eq_get hn, List.get_eq_getElem, ← hc]
  · rw [show (i + 1).toNat = i.toNat + 1 by omega, ← hrest]

/-- `readUint32` at a cursor whose remainder starts with four known bytes. -/
theorem readUint32_at (arr : List Nat) (i : Int) (b0 b1 b2 b3 : Nat) (rest : List Nat)
    (h0 : 0 ≤ i) (h : arr.drop i.toNat = b0 :: b1 :: b2 :: b3 :: rest) :
    Io.readUint32 { array := arr, index := i } =
      .ok (toInt32 (b0 + b1 * 2 ^ 8 + b2 * 2 ^ 16 + b3 * 2 ^ 24),
        { array := arr, index := i + 4 }) := by
  obtain ⟨g0, h1⟩ := drop_cons_shape arr i b0 _ h0 h
  obtain ⟨g1, h2⟩ := drop_cons_shape arr (i + 1) b1 _ (by omega) h1
  obtain ⟨g2, h3⟩ := drop_cons_shape arr (i + 1 + 1) b2 _ (by omega) h2
  obtain ⟨g3, _⟩ := drop_cons_shape arr (i + 1 + 1 + 1) b3 _ (by omega) h3
  have h4 : Io.readUint32 { array := arr, index := i } =
      .ok (toInt32 ((jsGet arr i).getD 0 +
        (jsGet arr (i + 1)).getD 0 * 2 ^ 8 +
        (jsGet arr (i + 1 + 1)).getD 0 * 2 ^ 16 +
        (jsGet arr (i + 1 + 1 + 1)).getD 0 * 2 ^ 24),
        { array := arr, index := i + 1 + 1 + 1 + 1 }) := rfl
  rw [h4, g0, g1, g2, g3, show i + 1 + 1 + 1 + 1 = i + 4 by ring]
  rfl

/-- The `readString` loop stops exactly at the first `0x00`, returning the
bytes before it. -/
theorem readStringLoop_until_zero (d : List Nat) :
    ∀ (arr : List Nat) (fuel : Nat) (i : Int) (acc rest : List Nat), 0 ≤ i →
    arr.drop i.toNat = d ++ 0 :: rest →
    (∀ b ∈ d, b ≠ 0) →
    d.length < fuel →
    Io.readStringLoop arr fuel i acc = (acc ++ d, i + d.length) := by
  induction d with
  | nil =>
      intro arr fuel i acc rest h0 hsplit _ hfuel
      cases fuel with
      | zero => omega
      | succ fuel =>
          obtain ⟨g, _⟩ := drop_cons_shape arr i 0 rest h0 (by simpa using hsplit)
          simp only [Io.readStringLoop]
          rw [if_neg (by simp [g])]
          simp
  | cons c d ih =>
      intro arr fuel i acc rest h0 hsplit hd hfuel
      cases fuel with
      | zero => omega
      | succ fuel =>
          obtain ⟨g, hnext⟩ := drop_cons_shape arr i c _ h0 (by simpa using hsplit)
          have hlt : i.toNat < arr.length := by
            by_contra hh
            rw [List.drop_eq_nil_of_le (by omega)] at hsplit
            exact absurd hsplit (by simp)
          have hc : c ≠ 0 := hd c (by simp)
          simp only [Io.readStringLoop]
          rw [if_pos ⟨by omega, by simp [g, hc]⟩, g]
          simp only [Option.getD_some]
          rw [ih arr fuel (i + 1) (acc ++ [c]) rest (by omega) hnext
            (fun b hb => hd b (by simp [hb])) (by simpa using hfuel)]
          simp only [List.append_assoc, List.singleton_append, List.length_cons]
          refine Prod.ext rfl ?_
          push_cast
          ring

/-- `readString` at a cursor whose remainder is a zero-free prefix followed
by the terminator. -/
theorem readString_until_zero (arr : List Nat) (i : Int) (d rest : List Nat)
    (h0 : 0 ≤ i) (hsplit : arr.drop i.toNat = d ++ 0 :: rest) (hd : ∀ b ∈ d, b ≠ 0) :
    Io.readString { array := arr, index := i } =
      .ok (d, { array := arr, index := i + d.length + 1 }) := by
  have hlen : arr.length = i.toNat + d.length + 1 + rest.length := by
    have := congrArg List.length hsplit
    simp only [List.length_drop, List.length_append, List.length_cons] at this
    have hle : i.toNat ≤ arr.length := by
      by_contra hh
      rw [List.drop_eq_nil_of_le (by omega)] at hsplit
      exact absurd hsplit (by simp)
    omega
  simp only [Io.readString]
  rw [readStringLoop_until_zero d arr _ i [] rest h0 hsplit hd (by omega)]
  simp

/-- `readSignature` at a cursor whose remainder is exactly a 64-byte
signature. -/
theorem readSignature_at (arr : List Nat) (i : Int) (sig : List Nat)
    (h0 : 0 ≤ i) (hs : arr.drop i.toNat = sig) (hlen : sig.length = 64) :
    Io.readSignature { array := arr, index := i } =
      .ok (sig, { array := arr, index := i + 64 }) := by
  simp only [Io.readSignature]
  rw [show i + (64 : Int) = i + ((64 : Nat) : Int) by norm_num,
    jsSlice_add arr i h0 64, hs, List.take_of_length_le (by omega)]

@[simp] theorem exceptBind_ok {ε α β : Type} (a : α) (f : α → Except ε β) :
    Except.bind (.ok a) f = f a := rfl

@[simp] theorem exceptBind_error {ε α β : Type} (e : ε) (f : α → Except ε β) :
    Except.bind (.error e) f = .error e := rfl

/-- C2 — the claim as stated is false at timestamp `2^31`: the tuple
`(1, "a", 2^31, 0⁶⁴)` serializes fine, but deserializing returns the
timestamp `−2^31`, because `readUint32` reassembles the four bytes with
signed 32-bit arithmetic. -/
theorem owid_byte_roundtrip_counterexample :
    (((Owid.mk 1 (some [97]) ((2 : Int) ^ 31) (some (List.replicate 64 0))
          .NotStarted none [] []).addToByteArray []).toOption.bind
      (fun bytes => (Owid.fromByteArray {} { array := bytes, index := 0 }).toOption.map
        (fun p => p.1.timestamp))) = some (-(2 ^ 31 : Int)) ∧
    (-(2 ^ 31 : Int)) ≠ ((2 : Int) ^ 31) := by
  decide

/-- C2 (amended) — the version-1 byte codec round-trips for every valid
tuple whose timestamp is below `2^31` (the signed 32-bit bound imposed by
`readUint32`): serializing with `addToByteArray` and deserializing with
`fromByteArray` restores the version, domain, timestamp and signature. -/
theorem owid_byte_roundtrip (o o' : Owid) (d sig : List Nat) (t : Nat)
    (hv : o.version = 1) (hdo : o.domain = some d) (hts : o.timestamp = (t : Int))
    (hsa : o.signatureArray = some sig)
    (hd : d ≠ []) (hdu : ∀ c ∈ d, 1 ≤ c ∧ c ≤ 255)
    (hlen : sig.length = 64) (hsb : ∀ c ∈ sig, c ≤ 255)
    (ht : t < 2 ^ 31) :
    ∃ bytes o2 r2,
      o.addToByteArray [] = .ok bytes ∧
      Owid.fromByteArray o' { array := bytes, index := 0 } = .ok (o2, r2) ∧
      o2.version = 1 ∧ o2.domain = some d ∧ o2.timestamp = (t : Int) ∧
      o2.signatureArray = some sig := by
  have hd255 : ∀ c ∈ d, c ≤ 255 := fun c hc => (hdu c hc).2
  have hdnz : ∀ c ∈ d, c ≠ 0 := fun c hc => by have := (hdu c hc).1; omega
  have hq := Io.writeUint32_toNat t (by omega)
  refine ⟨(1 :: (d ++ [0])) ++ (Io.writeUint32 [] (t : Int) ++ sig),
    Owid.mk 1 (some d) ((t : Nat) : Int) (some sig) o'.status o'.signer
      o'.statusTrace o'.signerTrace,
    { array := (1 :: (d ++ [0])) ++ (Io.writeUint32 [] (t : Int) ++ sig),
      index := (0 : Int) + 1 + (d.length : Int) + 1 + 4 + 64 },
    ?_, ?_, rfl, rfl, rfl, rfl⟩
  · -- write side
    have h4 : Io.writeSignature (([1] ++ d ++ [0]) ++ Io.writeUint32 [] (t : Int)) (some sig) =
        .ok ((([1] ++ d ++ [0]) ++ Io.writeUint32 [] (t : Int)) ++ sig) := by
      simp only [Io.writeSignature, hlen]
      rw [if_neg (by omega)]
      exact Io.writeByteArrayNoLength_ok sig _ hsb
    simp only [Owid.addToByteArray, hv, hdo, hts, hsa, Io.writeDate, Bind.bind]
    rw [show Io.writeByte [] 1 = Except.ok [1] from rfl, exceptBind_ok,
      Io.writeString_ok [1] d hd hd255, exceptBind_ok,
      Io.writeUint32_append ([1] ++ d ++ [0]) (t : Int), h4]
    simp
  · -- read side
    have harr : ((1 :: (d ++ [0])) ++ (Io.writeUint32 [] (t : Int) ++ sig)) =
        1 :: ((d ++ [0]) ++ (Io.writeUint32 [] (t : Int) ++ sig)) := by simp
    have hb0 : jsGet ((1 :: (d ++ [0])) ++ (Io.writeUint32 [] (t : Int) ++ sig)) 0 = some 1 := by
      rw [harr]; rfl
    have hdrop1 : ((1 :: (d ++ [0])) ++ (Io.writeUint32 [] (t : Int) ++ sig)).drop
        ((0 : Int) + 1).toNat = d ++ 0 :: (Io.writeUint32 [] (t : Int) ++ sig) := by
      rw [harr]
      simp
    have hstr := readString_until_zero ((1 :: (d ++ [0])) ++ (Io.writeUint32 [] (t : Int) ++ sig))
      ((0 : Int) + 1) d (Io.writeUint32 [] (t : Int) ++ sig) (by omega) hdrop1 hdnz
    have hdrop2 : ((1 :: (d ++ [0])) ++ (Io.writeUint32 [] (t : Int) ++ sig)).drop
        ((0 : Int) + 1 + (d.length : Int) + 1).toNat =
        t % 256 :: (t / 256 % 256 :: (t / 2 ^ 16 % 256 :: (t / 2 ^ 24 % 256 :: sig))) := by
      have hlenpre : (1 :: (d ++ [0])).length = d.length + 2 := by simp
      rw [show ((0 : Int) + 1 + (d.length : Int) + 1).toNat = (1 :: (d ++ [0])).length by
          rw [hlenpre]; omega]
      rw [List.drop_left, hq]
      rfl
    have hu32 := readUint32_at ((1 :: (d ++ [0])) ++ (Io.writeUint32 [] (t : Int) ++ sig))
      ((0 : Int) + 1 + (d.length : Int) + 1) (t % 256) (t / 256 % 256) (t / 2 ^ 16 % 256)
      (t / 2 ^ 24 % 256) sig (by omega) hdrop2
    have hdrop3 : ((1 :: (d ++ [0])) ++ (Io.writeUint32 [] (t : Int) ++ sig)).drop
        ((0 : Int) + 1 + (d.length : Int) + 1 + 4).toNat = sig := by
      have hlenpre : ((1 :: (d ++ [0])) ++ Io.writeUint32 [] (t : Int)).length = d.length + 6 := by
        rw [hq]; simp
      rw [show ((0 : Int) + 1 + (d.length : Int) + 1 + 4).toNat =
          ((1 :: (d ++ [0])) ++ Io.writeUint32 [] (t : Int)).length by rw [hlenpre]; omega]
      rw [← List.append_assoc]
      exact List.drop_left _ _
    have hsig := readSignature_at ((1 :: (d ++ [0])) ++ (Io.writeUint32 [] (t : Int) ++ sig))
      ((0 : Int) + 1 + (d.length : Int) + 1 + 4) sig (by omega) hdrop3 hlen
    simp only [Owid.fromByteArray, Io.readByte, Bind.bind, exceptBind_ok, hb0,
      Owid.fromByteArrayV1, Io.readDate]
    rw [hstr]
    simp only [exceptBind_ok]
    rw [hu32]
    simp only [exceptBind_ok]
    rw [hsig]
    simp only [exceptBind_ok]
    rw [u32_recombine t (by omega), toInt32_small t ht]

/-- C2 witness — a concrete valid tuple round-trips. -/
theorem owid_byte_roundtrip_witness :
    ∃ bytes o2 r2,
      (Owid.mk 1 (some [97, 98]) ((7 : Int)) (some (List.replicate 64 3))
        .NotStarted none [] []).addToByteArray [] = .ok bytes ∧
      Owid.fromByteArray {} { array := bytes, index := 0 } = .ok (o2, r2) ∧
      o2.version = 1 ∧ o2.domain = some [97, 98] ∧ o2.timestamp = ((7 : Nat) : Int) ∧
      o2.signatureArray = some (List.replicate 64 3) :=
  owid_byte_roundtrip _ {} [97, 98] (List.replicate 64 3) 7 rfl rfl (by norm_num) rfl
    (by decide) (by decide) (by decide) (by decide) (by norm_num)

/-- A postcondition relative to `o.startVerify` holds relative to `o`. -/
theorem verifyPost_ofStart (o : Owid) (p : Except JsErr VerifiedStatus × Owid)
    (h : VerifyPost o.startVerify p) : VerifyPost o p := by
  obtain ⟨h1, ⟨t1, h2⟩, ⟨t2, h3⟩⟩ := h
  refine ⟨h1, ⟨.Processing :: t1, ?_⟩, ⟨none :: t2, ?_⟩⟩
  · rw [h2]; simp
  · rw [h3]; simp

/-- A loop postcondition relative to `o.startVerify` is a full verification
postcondition relative to `o`. -/
theorem loopPost_ofStart (o : Owid) (p : Except JsErr VerifiedStatus × Owid)
    (h : LoopPost o.startVerify p) : VerifyPost o p := by
  obtain ⟨h1, ⟨t1, h2⟩, ⟨t2, h3⟩⟩ := h
  refine ⟨h1, ⟨t1, ?_⟩, ⟨t2, ?_⟩⟩
  · rw [h2]; simp
  · rw [h3]; simp

/-- A `VerifyPost` survives a `catch` block that records `Exception` and
rethrows. -/
theorem VerifyPost.exc (o : Owid) (r : Except JsErr VerifiedStatus) (q : Owid) (e : JsErr)
    (h : VerifyPost o (r, q)) : VerifyPost o (.error e, q.setStatus .Exception) := by
  obtain ⟨_, ⟨t1, h2⟩, ⟨t2, h3⟩⟩ := h
  refine ⟨by simp [finalStatus], ⟨t1 ++ [.Exception], ?_⟩, ⟨t2, ?_⟩⟩
  · simp only [Owid.setStatus_statusTrace] at *
    rw [h2]; simp
  · simpa using h3

/-- A `VerifyPost` survives recording the signer after a clean return. -/
theorem VerifyPost.withSigner (o : Owid) (v : VerifiedStatus) (q : Owid) (s : Option Signer)
    (h : VerifyPost o (.ok v, q)) : VerifyPost o (.ok v, q.setSigner s) := by
  obtain ⟨h1, ⟨t1, h2⟩, ⟨t2, h3⟩⟩ := h
  refine ⟨by simpa [finalStatus] using h1, ⟨t1, by simpa using h2⟩, ⟨t2 ++ [s], ?_⟩⟩
  simp only [Owid.setSigner_signerTrace] at *
  rw [h3]; simp

/-- `verifyWithCrypto` satisfies the status contract. -/
theorem verifyWithCrypto_post (co : CryptoOracle) (tgt : Option OwidTarget) (ck : Nat)
    (o : Owid) : VerifyPost o (Owid.verifyWithCrypto co tgt ck o) := by
  unfold Owid.verifyWithCrypto
  simp only [Owid.setSigner_signatureArray, Owid.startVerify_signatureArray]
  split
  · exact ⟨by simp [finalStatus], ⟨[.Exception], by simp⟩, ⟨[none], by simp⟩⟩
  · split
    · exact ⟨by simp [finalStatus], ⟨[.Exception], by simp⟩, ⟨[none], by simp⟩⟩
    · rename_i bv _
      exact ⟨by simp [finalStatus],
        ⟨[if bv then .Valid else .NotValid], by simp⟩, ⟨[none], by simp⟩⟩

/-- `verifyWithPublicKey` satisfies the status contract. -/
theorem verifyWithPublicKey_post (co : CryptoOracle) (tgt : Option OwidTarget) (k : Key)
    (o : Owid) : VerifyPost o (Owid.verifyWithPublicKey co tgt k o) := by
  unfold Owid.verifyWithPublicKey
  split
  · exact ⟨by simp [finalStatus], ⟨[.Exception], by simp⟩, ⟨[], by simp⟩⟩
  · rename_i ck _
    exact verifyPost_ofStart o _ (verifyWithCrypto_post co tgt ck o.startVerify)

/-- The key-selection loop satisfies the loop contract. -/
theorem verifyKeysLoop_post (co : CryptoOracle) (tgt : Option OwidTarget)
    (parse : DateParse) (time : Int) (keys : List Key) (o : Owid) :
    LoopPost o (Owid.verifyKeysLoop co tgt parse time keys o) := by
  induction keys generalizing o with
  | nil =>
      simp only [Owid.verifyKeysLoop]
      exact ⟨by simp [finalStatus], ⟨[.KeyNotFound], by simp⟩, ⟨[], by simp⟩⟩
  | cons k rest ih =>
      simp only [Owid.verifyKeysLoop]
      by_cases h : time ≥ parse k.created - 60 * 60 * 1000
      · rw [if_pos h]
        obtain ⟨h1, ⟨t1, h2⟩, ⟨t2, h3⟩⟩ := verifyWithPublicKey_post co tgt k o
        exact ⟨h1, ⟨.Processing :: t1, h2⟩, ⟨none :: t2, h3⟩⟩
      · rw [if_neg h]
        exact ih o

/-- `verifyWithPublicKeys` satisfies the status contract. -/
theorem verifyWithPublicKeys_post (co : CryptoOracle) (tgt : Option OwidTarget)
    (parse : DateParse) (db : Int) (keys : List Key) (o : Owid) :
    VerifyPost o (Owid.verifyWithPublicKeys co tgt parse db keys o) := by
  have he : Owid.verifyWithPublicKeys co tgt parse db keys o =
      Owid.verifyKeysLoop co tgt parse (Owid.timeStampMs db o.startVerify) keys
        o.startVerify := rfl
  rw [he]
  exact loopPost_ofStart o _ (verifyKeysLoop_post co tgt parse _ keys o.startVerify)

/-- `verifyWithSigner` satisfies the status contract. -/
theorem verifyWithSigner_post (co : CryptoOracle) (tgt : Option OwidTarget)
    (parse : DateParse) (db : Int) (signer : Signer) (o : Owid) :
    VerifyPost o (Owid.verifyWithSigner co tgt parse db signer o) := by
  unfold Owid.verifyWithSigner
  dsimp only
  split
  · exact ⟨by simp [finalStatus], ⟨[.Exception], by simp⟩, ⟨[], by simp⟩⟩
  · split
    · rename_i e o2 heq
      have hp := verifyWithPublicKeys_post co tgt parse db signer.publicKeys o.startVerify
      rw [heq] at hp
      exact verifyPost_ofStart o _ (VerifyPost.exc o.startVerify _ o2 e hp)
    · rename_i st o2 heq
      have hp := verifyWithPublicKeys_post co tgt parse db signer.publicKeys o.startVerify
      rw [heq] at hp
      exact verifyPost_ofStart o _ (VerifyPost.withSigner o.startVerify st o2 (some signer) hp)

/-- `verifyWithService` satisfies the status contract. -/
theorem verifyWithService_post (co : CryptoOracle) (tgt : Option OwidTarget)
    (parse : DateParse) (db : Int) (service : Owid.SignerService) (o : Owid) :
    VerifyPost o (Owid.verifyWithService co tgt parse db service o) := by
  unfold Owid.verifyWithService
  dsimp only
  split
  · exact ⟨by simp [finalStatus], ⟨[.Exception], by simp⟩, ⟨[], by simp⟩⟩
  · rename_i signer _
    exact verifyPost_ofStart o _ (verifyWithSigner_post co tgt parse db signer o.startVerify)
  · exact ⟨by simp [finalStatus], ⟨[.SignerNotFound], by simp⟩, ⟨[], by simp⟩⟩

/-- C3 — every verification entry point begins by writing `Processing` and
clearing the recorded signer, and ends with the status equal to the
returned value on a clean return, or `Exception` when the error
propagates. -/
theorem verify_entry_status_contract (co : CryptoOracle) (tgt : Option OwidTarget)
    (parse : DateParse) (db : Int) (ck : Nat) (k : Key) (keys : List Key)
    (signer : Signer) (service : Owid.SignerService) (o : Owid) :
    VerifyPost o (Owid.verifyWithCrypto co tgt ck o) ∧
    VerifyPost o (Owid.verifyWithPublicKey co tgt k o) ∧
    VerifyPost o (Owid.verifyWithPublicKeys co tgt parse db keys o) ∧
    VerifyPost o (Owid.verifyWithSigner co tgt parse db signer o) ∧
    VerifyPost o (Owid.verifyWithService co tgt parse db service o) :=
  ⟨verifyWithCrypto_post co tgt ck o, verifyWithPublicKey_post co tgt k o,
   verifyWithPublicKeys_post co tgt parse db keys o,
   verifyWithSigner_post co tgt parse db signer o,
   verifyWithService_post co tgt parse db service o⟩

/-- When no key in the list is time-eligible the selection loop leaves
`KeyNotFound`. -/
theorem verifyKeysLoop_none (co : CryptoOracle) (tgt : Option OwidTarget)
    (parse : DateParse) (time : Int) :
    ∀ (keys : List Key) (o1 : Owid),
    (∀ k' ∈ keys, time < parse k'.created - 60 * 60 * 1000) →
    Owid.verifyKeysLoop co tgt parse time keys o1 =
      (.ok .KeyNotFound, o1.setStatus .KeyNotFound) := by
  intro keys
  induction keys with
  | nil => intro o1 _; rfl
  | cons k rest ih =>
      intro o1 h
      simp only [Owid.verifyKeysLoop]
      rw [if_neg (by have := h k (by simp); omega)]
      exact ih o1 (fun k' hk' => h k' (by simp [hk']))

/-- The selection loop skips every time-ineligible prefix and delegates to
the first eligible key, ignoring everything after it. -/
theorem verifyKeysLoop_skip (co : CryptoOracle) (tgt : Option OwidTarget)
    (parse : DateParse) (time : Int) (pre : List Key) :
    ∀ (k : Key) (post : List Key) (o1 : Owid),
    (∀ k' ∈ pre, time < parse k'.created - 60 * 60 * 1000) →
    time ≥ parse k.created - 60 * 60 * 1000 →
    Owid.verifyKeysLoop co tgt parse time (pre ++ k :: post) o1 =
      Owid.verifyWithPublicKey co tgt k o1 := by
  induction pre with
  | nil =>
      intro k post o1 _ hk
      simp only [List.nil_append, Owid.verifyKeysLoop]
      rw [if_pos hk]
  | cons p rest ih =>
      intro k post o1 h hk
      simp only [List.cons_append, Owid.verifyKeysLoop]
      rw [if_neg (by have := h p (by simp); omega)]
      exact ih k post o1 (fun k' hk' => h k' (by simp [hk'])) hk

/-- C1 — `verifyWithPublicKeys` examines the keys in list order and verifies
against exactly the first key whose created time minus the 3,600,000 ms
tolerance is at or before the OWID time, never falling through to a later
key; when no key qualifies it returns `KeyNotFound`. -/
theorem verifyWithPublicKeys_selects_first_eligible
    (co : CryptoOracle) (tgt : Option OwidTarget) (parse : DateParse) (db : Int)
    (pre : List Key) (k : Key) (post : List Key) (o : Owid)
    (hpre : ∀ k' ∈ pre, Owid.timeStampMs db o < parse k'.created - 3600000)
    (hk : parse k.created - 3600000 ≤ Owid.timeStampMs db o) :
    Owid.verifyWithPublicKeys co tgt parse db (pre ++ k :: post) o =
      Owid.verifyWithPublicKey co tgt k o.startVerify ∧
    (∀ keys : List Key,
      (∀ k' ∈ keys, Owid.timeStampMs db o < parse k'.created - 3600000) →
      Owid.verifyWithPublicKeys co tgt parse db keys o =
        (.ok .KeyNotFound, (o.startVerify).setStatus .KeyNotFound)) := by
  constructor
  · have he : Owid.verifyWithPublicKeys co tgt parse db (pre ++ k :: post) o =
        Owid.verifyKeysLoop co tgt parse (Owid.timeStampMs db o.startVerify)
          (pre ++ k :: post) o.startVerify := rfl
    rw [he]
    exact verifyKeysLoop_skip co tgt parse _ pre k post o.startVerify
      (fun k' hk' => by rw [Owid.timeStampMs_startVerify]; have := hpre k' hk'; omega)
      (by rw [Owid.timeStampMs_startVerify]; omega)
  · intro keys hkeys
    have he : Owid.verifyWithPublicKeys co tgt parse db keys o =
        Owid.verifyKeysLoop co tgt parse (Owid.timeStampMs db o.startVerify)
          keys o.startVerify := rfl
    rw [he]
    exact verifyKeysLoop_none co tgt parse _ keys o.startVerify
      (fun k' hk' => by rw [Owid.timeStampMs_startVerify]; have := hkeys k' hk'; omega)

/-- C1 witness — with a first key too new by far, a second key just old
enough and a third arbitrary key, verification delegates to the second key
exactly; and a list of only the too-new key yields `KeyNotFound`. -/
theorem verifyWithPublicKeys_selects_first_eligible_witness :
    Owid.verifyWithPublicKeys
        (CryptoOracle.mk (fun _ _ => .ok []) (fun _ _ _ => .ok true)
          (fun _ => .ok 0) (fun _ => .ok 0))
        (some (fun b => b)) (fun s => if s = [1] then 10000000 else 0) 0
        ([{ pem := [9], created := [1] }] ++ { pem := [8], created := [2] } ::
          [{ pem := [7], created := [3] }]) {} =
      Owid.verifyWithPublicKey
        (CryptoOracle.mk (fun _ _ => .ok []) (fun _ _ _ => .ok true)
          (fun _ => .ok 0) (fun _ => .ok 0))
        (some (fun b => b)) { pem := [8], created := [2] } ({} : Owid).startVerify :=
  (verifyWithPublicKeys_selects_first_eligible _ _ _ 0
    [{ pem := [9], created := [1] }] { pem := [8], created := [2] }
    [{ pem := [7], created := [3] }] {} (by decide) (by decide)).1

/-- C5 — the claim as stated is false: with a single public key created two
hours after the OWID timestamp, `verifyWithPublicKeys` returns
`KeyNotFound`, not `NotValid`. -/
theorem future_key_counterexample :
    (Owid.verifyWithPublicKeys
        (CryptoOracle.mk (fun _ _ => .ok []) (fun _ _ _ => .ok true)
          (fun _ => .ok 0) (fun _ => .ok 0))
        (some (fun b => b)) (fun _ => 7200000) 0
        [{ pem := [], created := [] }] {}).1 = .ok .KeyNotFound ∧
    (Owid.verifyWithPublicKeys
        (CryptoOracle.mk (fun _ _ => .ok []) (fun _ _ _ => .ok true)
          (fun _ => .ok 0) (fun _ => .ok 0))
        (some (fun b => b)) (fun _ => 7200000) 0
        [{ pem := [], created := [] }] {}).1 ≠ .ok .NotValid := by
  decide

/-- C5 (amended) — with a single public key whose created time is 2 hours
after the OWID timestamp (outside the 1-hour tolerance, so no candidate
qualifies), `verifyWithPublicKeys` returns `KeyNotFound` and leaves the
status `KeyNotFound`. -/
theorem future_key_keyNotFound (co : CryptoOracle) (tgt : Option OwidTarget)
    (parse : DateParse) (db : Int) (k : Key) (o : Owid)
    (h : parse k.created = Owid.timeStampMs db o + 7200000) :
    Owid.verifyWithPublicKeys co tgt parse db [k] o =
      (.ok .KeyNotFound, (o.startVerify).setStatus .KeyNotFound) := by
  have he : Owid.verifyWithPublicKeys co tgt parse db [k] o =
      Owid.verifyKeysLoop co tgt parse (Owid.timeStampMs db o.startVerify) [k]
        o.startVerify := rfl
  rw [he]
  refine verifyKeysLoop_none co tgt parse _ [k] o.startVerify ?_
  intro k' hk'
  rw [List.mem_singleton] at hk'
  subst hk'
  rw [Owid.timeStampMs_startVerify]
  omega

/-- C5 witness — the concrete two-hours-in-the-future key yields
`KeyNotFound`. -/
theorem future_key_keyNotFound_witness :
    Owid.verifyWithPublicKeys
        (CryptoOracle.mk (fun _ _ => .ok []) (fun _ _ _ => .ok true)
          (fun _ => .ok 0) (fun _ => .ok 0))
        (some (fun b => b)) (fun _ => 7200000) 0 [{ pem := [5], created := [6] }] {} =
      (.ok .KeyNotFound, (({} : Owid).startVerify).setStatus .KeyNotFound) :=
  future_key_keyNotFound _ _ _ 0 { pem := [5], created := [6] } {} (by decide)

/-- JS string `<` is irreflexive. -/
theorem jsStrLt_irrefl (a : List Nat) : jsStrLt a a = false := by
  induction a with
  | nil => rfl
  | cons x xs ih => simp [jsStrLt, ih]

/-- JS string `<` is transitive. -/
theorem jsStrLt_trans : ∀ (a b c : List Nat),
    jsStrLt a b = true → jsStrLt b c = true → jsStrLt a c = true := by
  intro a
  induction a with
  | nil =>
      intro b c hab hbc
      cases b with
      | nil => simp [jsStrLt] at hab
      | cons y ys =>
          cases c with
          | nil => simp [jsStrLt] at hbc
          | cons z zs => simp [jsStrLt]
  | cons x xs ih =>
      intro b c hab hbc
      cases b with
      | nil => simp [jsStrLt] at hab
      | cons y ys =>
          cases c with
          | nil => simp [jsStrLt] at hbc
          | cons z zs =>
              simp only [jsStrLt] at hab hbc ⊢
              split_ifs at hab hbc ⊢ <;>
                first
                  | rfl
                  | omega
                  | (exact ih ys zs hab hbc)

/-- JS string `<` is trichotomous. -/
theorem jsStrLt_total : ∀ (a b : List Nat),
    jsStrLt a b = true ∨ jsStrLt b a = true ∨ a = b := by
  intro a
  induction a with
  | nil =>
      intro b
      cases b with
      | nil => right; right; rfl
      | cons y ys => left; simp [jsStrLt]
  | cons x xs ih =>
      intro b
      cases b with
      | nil => right; left; simp [jsStrLt]
      | cons y ys =>
          rcases Nat.lt_trichotomy x y with h | h | h
          · left; simp [jsStrLt, h]
          · subst h
            rcases ih ys with h2 | h2 | h2
            · left; simp [jsStrLt, h2]
            · right; left; simp [jsStrLt, h2]
            · right; right; rw [h2]
          · right; left; simp [jsStrLt, h]

/-- The key chosen by `newestKey` comes from the list. -/
theorem newestKey_mem : ∀ (rest : List Key) (k0 : Key),
    Owid.newestKey k0 rest ∈ k0 :: rest := by
  intro rest
  induction rest with
  | nil => intro k0; simp [Owid.newestKey]
  | cons k ks ih =>
      intro k0
      simp only [Owid.newestKey]
      by_cases h : jsStrGt k.created k0.created
      · rw [if_pos h]
        have := ih k
        simp only [List.mem_cons] at this ⊢
        tauto
      · rw [if_neg h]
        have := ih k0
        simp only [List.mem_cons] at this ⊢
        tauto

/-- No key in the list has a `created` string strictly greater (in JS string
order) than the one chosen by `newestKey`. -/
theorem newestKey_max : ∀ (rest : List Key) (k0 k : Key), k ∈ k0 :: rest →
    jsStrGt k.created (Owid.newestKey k0 rest).created = false := by
  intro rest
  induction rest with
  | nil =>
      intro k0 k hk
      simp only [List.mem_singleton] at hk
      subst hk
      simp [Owid.newestKey, jsStrGt, jsStrLt_irrefl]
  | cons p ks ih =>
      intro k0 k hk
      simp only [Owid.newestKey]
      by_cases h : jsStrGt p.created k0.created
      · rw [if_pos h]
        rcases List.mem_cons.mp hk with heq | hk2
        · subst heq
          have hp : jsStrGt p.created (Owid.newestKey p ks).created = false :=
            ih p p (List.mem_cons_self _ _)
          simp only [jsStrGt] at h hp ⊢
          cases hb : jsStrLt (Owid.newestKey p ks).created k.created with
          | false => rfl
          | true =>
              exfalso
              rw [jsStrLt_trans _ _ _ hb h] at hp
              simp at hp
        · exact ih p k hk2
      · rw [if_neg h]
        simp only [Bool.not_eq_true] at h
        rcases List.mem_cons.mp hk with heq | hk2
        · rw [heq]
          exact ih k0 k0 (List.mem_cons_self _ _)
        · rcases List.mem_cons.mp hk2 with heq | hk3
          · subst heq
            have hp : jsStrGt k0.created (Owid.newestKey k0 ks).created = false :=
              ih k0 k0 (List.mem_cons_self _ _)
            simp only [jsStrGt] at h hp ⊢
            cases hb : jsStrLt (Owid.newestKey k0 ks).created k.created with
            | false => rfl
            | true =>
                exfalso
                rcases jsStrLt_total k0.created (Owid.newestKey k0 ks).created with
                  h1 | h1 | h1
                · rw [jsStrLt_trans _ _ _ h1 hb] at h
                  simp at h
                · rw [h1] at hp
                  simp at hp
                · rw [← h1] at hb
                  rw [hb] at h
                  simp at h
          · exact ih k0 k (List.mem_cons_of_mem _ hk3)

/-- With all-equal `created` strings the first key wins: replacement happens
only on a strict comparison. -/
theorem newestKey_ties : ∀ (rest : List Key) (k0 : Key),
    (∀ k ∈ rest, k.created = k0.created) → Owid.newestKey k0 rest = k0 := by
  intro rest
  induction rest with
  | nil => intro k0 _; rfl
  | cons p ks ih =>
      intro k0 h
      simp only [Owid.newestKey]
      rw [if_neg (by
        rw [h p (List.mem_cons_self _ _)]
        simp [jsStrGt, jsStrLt_irrefl])]
      exact ih k0 (fun k hk => h k (List.mem_cons_of_mem _ hk))

/-- C4 — the claim as stated is false: `signWithSigner` compares the
`created` **strings** with the JS `>` operator, not the parsed
`createdDate`. With the keys `"Jan 13 2020"` (pem 1) and `"Feb 01 2020"`
(pem 2) — the second created 19 days later, per the real `Date.parse`
values supplied as the parse oracle — the code signs with the first key
(`"Jan…" > "Feb…"` lexicographically) although the newest key by
`createdDate` is the second. -/
theorem signWithSigner_created_string_counterexample :
    (Owid.signWithSigner
        (CryptoOracle.mk (fun ck _ => .ok (List.replicate 64 ck)) (fun _ _ _ => .ok true)
          (fun _ => .ok 0) (fun pem => .ok (pem.headD 0)))
        (some (fun b => b)) 0
        (Signer.mk 1 [100] [] [] [] []
          (some [{ pem := [1], created := [74, 97, 110, 32, 49, 51, 32, 50, 48, 50, 48] },
                 { pem := [2], created := [70, 101, 98, 32, 48, 49, 32, 50, 48, 50, 48] }]))
        {}).2.signatureArray = some (List.replicate 64 1) ∧
    (Owid.signWithSigner
        (CryptoOracle.mk (fun ck _ => .ok (List.replicate 64 ck)) (fun _ _ _ => .ok true)
          (fun _ => .ok 0) (fun pem => .ok (pem.headD 0)))
        (some (fun b => b)) 0
        (Signer.mk 1 [100] [] [] [] []
          (some [{ pem := [1], created := [74, 97, 110, 32, 49, 51, 32, 50, 48, 50, 48] },
                 { pem := [2], created := [70, 101, 98, 32, 48, 49, 32, 50, 48, 50, 48] }]))
        {}).2.signatureArray ≠ some (List.replicate 64 2) ∧
    newestByCreatedDate
      (fun s => if s = [70, 101, 98, 32, 48, 49, 32, 50, 48, 50, 48]
        then (1580515200000 : Int) else 1578873600000)
      { pem := [1], created := [74, 97, 110, 32, 49, 51, 32, 50, 48, 50, 48] }
      [{ pem := [2], created := [70, 101, 98, 32, 48, 49, 32, 50, 48, 50, 48] }] =
      { pem := [2], created := [70, 101, 98, 32, 48, 49, 32, 50, 48, 50, 48] } ∧
    (1580515200000 : Int) > 1578873600000 := by
  decide

/-- C4 (amended) — `signWithSigner` fails when `privateKeys` is missing or
empty; otherwise it selects the private key whose `created` **string** is
greatest in JS lexicographic order (ties — equal strings — leaving the
earliest listed key selected), sets the OWID's domain to the signer's
domain, signs with that key's PEM, and records the signer. -/
theorem signWithSigner_selection (co : CryptoOracle) (tgt : Option OwidTarget)
    (nowMinutes : Int) (signer : Signer) (o : Owid) :
    (signer.privateKeys = none →
      Owid.signWithSigner co tgt nowMinutes signer o = (.error .missingPrivateKeys, o)) ∧
    (signer.privateKeys = some [] →
      Owid.signWithSigner co tgt nowMinutes signer o = (.error .missingPrivateKeys, o)) ∧
    (∀ k0 rest, signer.privateKeys = some (k0 :: rest) →
      Owid.newestKey k0 rest ∈ k0 :: rest ∧
      (∀ k ∈ k0 :: rest, jsStrGt k.created (Owid.newestKey k0 rest).created = false) ∧
      ((∀ k ∈ rest, k.created = k0.created) → Owid.newestKey k0 rest = k0) ∧
      Owid.signWithSigner co tgt nowMinutes signer o =
        (match Owid.signWithPemKey co tgt nowMinutes (Owid.newestKey k0 rest).pem
            { o with domain := some signer.domain } with
         | (.error e, o2) => (.error e, o2)
         | (.ok _, o2) => (.ok (), o2.setSigner (some signer)))) := by
  refine ⟨?_, ?_, ?_⟩
  · intro h
    simp only [Owid.signWithSigner, h]
  · intro h
    simp only [Owid.signWithSigner, h]
  · intro k0 rest h
    refine ⟨newestKey_mem rest k0, newestKey_max rest k0, newestKey_ties rest k0, ?_⟩
    simp only [Owid.signWithSigner, h]

/-- C4 witness — on a concrete two-key signer the selected key is a member
of the list and nothing in the list is string-greater than it. -/
theorem signWithSigner_selection_witness :
    Owid.newestKey { pem := [1], created := [3] } [{ pem := [2], created := [4] }] ∈
      ({ pem := [1], created := [3] } : Key) :: [{ pem := [2], created := [4] }] :=
  ((signWithSigner_selection
      (CryptoOracle.mk (fun _ _ => .ok []) (fun _ _ _ => .ok true)
        (fun _ => .ok 0) (fun _ => .ok 0)) (some (fun b => b)) 0
      (Signer.mk 1 [100] [] [] [] []
        (some [{ pem := [1], created := [3] }, { pem := [2], created := [4] }]))
      {}).2.2 { pem := [1], created := [3] } [{ pem := [2], created := [4] }] rfl).1
